import Mathlib

/-!
Verification of the Weave import-alias and module-boundary scripts
(`refactor_imports.py`, `analyze_report.py`, `audit_script.py`).

Strings are modelled through their character lists (`String.data`); the host
is modelled as POSIX (`os.sep = '/'`), matching the environment the scripts
run in.  The repository root (`ROOT_DIR = os.getcwd()`) is an explicit
parameter: a list of plain path segments.
-/

/-- A path segment, one component of a '/'-separated path. -/
abbrev Seg := List Char

/-- The single-quote character (written via its code point). -/
def sqChar : Char := Char.ofNat 39

/-- The double-quote character. -/
def dqChar : Char := Char.ofNat 34

/-- The newline character. -/
def nlChar : Char := Char.ofNat 10

/-- Python `s.split(sep)` for a one-character separator. -/
def splitChar (sep : Char) : List Char → List (List Char)
  | [] => [[]]
  | c :: rest =>
    match splitChar sep rest with
    | [] => [[c]]
    | h :: t => if c = sep then [] :: h :: t else (c :: h) :: t

/-- Python `str.startswith`. -/
def strStartsWith (s p : List Char) : Bool := p.isPrefixOf s

/-- Python `sub in s` (substring containment). -/
def strContains (s sub : List Char) : Bool :=
  match s with
  | [] => sub.isEmpty
  | _ :: rest => sub.isPrefixOf s || strContains rest sub

/-- The segment `"."`. -/
def dotSeg : Seg := ['.']

/-- The segment `".."`. -/
def dotdotSeg : Seg := ['.', '.']

/-- Core of POSIX `os.path.normpath`, processing segments left to right over a
stack (head = innermost directory).  In absolute mode (`absMode = true`) a
`".."` at the filesystem root is dropped, as `normpath` does for absolute
paths; in relative mode it is kept. -/
def normStack (absMode : Bool) : List Seg → List Seg → List Seg
  | acc, [] => acc
  | acc, seg :: rest =>
    if seg = [] ∨ seg = dotSeg then normStack absMode acc rest
    else if seg = dotdotSeg then
      match acc with
      | [] => if absMode then normStack absMode [] rest else normStack absMode [dotdotSeg] rest
      | t :: acc2 =>
        if t = dotdotSeg then normStack absMode (dotdotSeg :: t :: acc2) rest
        else normStack absMode acc2 rest
    else normStack absMode (seg :: acc) rest

/-- Segments of `os.path.normpath` of an absolute path given by `segs`. -/
def normAbsSegs (segs : List Seg) : List Seg := (normStack true [] segs).reverse

/-- Lexical normalization of a relative segment list (escaping `".."`
segments are kept at the front). -/
def relNormSegs (segs : List Seg) : List Seg := (normStack false [] segs).reverse

/-- Length of the common segment-wise prefix of two paths
(`os.path.commonprefix` applied to segment lists, as `posixpath.relpath`
does). -/
def commonPrefixLen : List Seg → List Seg → Nat
  | x :: xs, y :: ys => if x = y then commonPrefixLen xs ys + 1 else 0
  | _, _ => 0

/-- Segments of `posixpath.relpath(path, start)` for already-normalized
absolute segment lists. -/
def relpathSegs (path start : List Seg) : List Seg :=
  List.replicate (start.length - commonPrefixLen path start) dotdotSeg ++
    path.drop (commonPrefixLen path start)

/-- Join segments with `'/'`; the empty list renders as `"."` exactly as
`posixpath.relpath` returns `os.curdir` for identical paths. -/
def joinSegsStr : List Seg → List Char
  | [] => dotSeg
  | [s] => s
  | s :: rest => s ++ '/' :: joinSegsStr rest

/-- Segments of `os.path.dirname` of a root-relative file path. -/
def dirSegs (file : List Char) : List Seg := (splitChar '/' file).dropLast

/-- `resolve_path` from `refactor_imports.py`.

```python
def resolve_path(current_file_path, import_path):
    if import_path.startswith('.'):
        current_dir = os.path.dirname(current_file_path)
        abs_path = os.path.abspath(os.path.join(current_dir, import_path))
        rel_path = os.path.relpath(abs_path, ROOT_DIR)
        return rel_path
    return import_path
```

`root` is the segment list of `ROOT_DIR = os.getcwd()`; `file` is the
containing file's path relative to the root (in the script the walked file
path is `ROOT_DIR`-prefixed, so `os.path.join`/`abspath` act on
`root ++ dirSegs file ++ segments of path`). -/
def resolve_path (root : List Seg) (file path : String) : String :=
  if strStartsWith path.data dotSeg then
    String.mk (joinSegsStr
      (relpathSegs (normAbsSegs (root ++ dirSegs file.data ++ splitChar '/' path.data)) root))
  else path

/-- Purely lexical resolution: join the containing directory with the
specifier and normalize `.`/`..` segments, with no reference to the location
of the repository root on the host filesystem.  This is the reference
semantics the specification ascribes to the Path Resolver. -/
def lexicalResolve (file spec : String) : String :=
  String.mk (joinSegsStr (relNormSegs (dirSegs file.data ++ splitChar '/' spec.data)))

/-- The `ALIASES` table of `refactor_imports.py`, in declared order
("Order matters: more specific first"). -/
def ALIASES : List (String × String) :=
  [(("src/modules"), ("@/modules")),
   (("src/shared"), ("@/shared")),
   (("src/db"), ("@/db")),
   (("app"), ("@/app")),
   (("src/components"), ("@/components")),
   (("src/types"), ("@/types")),
   (("src/lib"), ("@/lib")),
   (("src/hooks"), ("@/hooks")),
   (("src/stores"), ("@/stores")),
   (("src/context"), ("@/context")),
   (("src/guidelines"), ("@/guidelines")),
   (("assets"), ("@/assets"))]

/-- The loop body of `get_alias_for_path`, over an arbitrary alias table.

```python
for source, alias in ALIASES:
    if path == source or path.startswith(source + os.sep) or path.startswith(source + '/'):
        return path.replace(source, alias, 1)
return None
```

On POSIX `os.sep = '/'`, so the second and third disjuncts coincide and are
modelled once.  Under the guard the first occurrence of `source` in `path`
is at index 0, so `path.replace(source, alias, 1)` is
`alias ++ path.drop source.length`. -/
def get_alias_core : List (String × String) → String → Option String
  | [], _ => none
  | (source, aliasStr) :: rest, path =>
    if path = source ∨ strStartsWith path.data (source.data ++ ['/']) then
      some (String.mk (aliasStr.data ++ path.data.drop source.data.length))
    else get_alias_core rest path

/-- `get_alias_for_path` from `refactor_imports.py`. -/
def get_alias_for_path (path : String) : Option String := get_alias_core ALIASES path

/-- The per-occurrence decision of `replacer` in `refactor_imports.py`
(lines 79-129): given the containing file and the quoted specifier `path` of
a matched import/export/require occurrence, return `some aliased` when the
occurrence is rewritten and `none` when the original text is kept.

```python
if not path.startswith('.'): return match.group(0)
resolved = resolve_path(filepath, path)
if resolved.startswith('..'): return match.group(0)
aliased = get_alias_for_path(resolved)
if aliased:
    aliased = aliased.replace(os.sep, '/')   # identity on POSIX
    if path != aliased:
        if "../../" in path: return f"{prefix}{aliased}{suffix}"
        if path.startswith("../../"): return f"{prefix}{aliased}{suffix}"
        if "/src/" in path: return f"{prefix}{aliased}{suffix}"
return match.group(0)
```

`if aliased:` is Python truthiness: `None` and `""` both fall through. -/
def rewriteSpecifier (root : List Seg) (file path : String) : Option String :=
  if strStartsWith path.data dotSeg then
    if strStartsWith (resolve_path root file path).data dotdotSeg then none
    else
      match get_alias_for_path (resolve_path root file path) with
      | none => none
      | some aliased =>
        if aliased = ("") then none
        else if path ≠ aliased then
          if strContains path.data (("../../").data) then some aliased
          else if strStartsWith path.data (("../../").data) then some aliased
          else if strContains path.data (("/src/").data) then some aliased
          else none
        else none
  else none

/-! ### The specifier scanner

`refactor_imports.py` rewrites a file's content with

```python
IMPORT_REGEX = re.compile(
  r"""(import\s+.*?from\s+['"])(.*?)(['"])|(export\s+.*?from\s+['"])(.*?)(['"])|(require\(['"])(.*?)(['"])""")
new_content = IMPORT_REGEX.sub(replacer, content)
```

`re.sub` scans left to right, taking the leftmost match and resuming after
it.  The three alternatives start with the distinct literals `import`,
`export` and `require(`, so alternation order is immaterial at a given
position.  Backtracking for `import\s+.*?from\s+['"]` resolves
deterministically: the greedy `\s+` runs over maximal whitespace (shorter
splittings only place `.*?` inside whitespace, where no `from` literal can
begin); the lazy `.*?` (which cannot cross a newline) then looks for the
earliest `from` that is followed by at least one whitespace character whose
maximal run ends at a quote; the lazy specifier group `(.*?)` then runs to
the first quote, failing (and resuming the outer scan for a later `from`)
if a newline intervenes. -/

/-- Whitespace characters of Python `\s` occurring in source text
(space, tab, newline, carriage return). -/
def isWSChar (c : Char) : Bool := c = (' ') ∨ c = (Char.ofNat 9) ∨ c = nlChar ∨ c = (Char.ofNat 13)

/-- Quote characters matched by the regex class. -/
def isQuoteChar (c : Char) : Bool := c = sqChar ∨ c = dqChar

/-- Length of the maximal leading whitespace run. -/
def countWS : List Char → Nat
  | [] => 0
  | c :: r => if isWSChar c then countWS r + 1 else 0

/-- The lazy quoted group `(.*?)(['"])`: text up to the first quote, failing
if a newline (which `.` cannot match) comes first.  Returns the group, the
closing quote and the rest of the input. -/
def grabToQuote : List Char → Option (List Char × Char × List Char)
  | [] => none
  | c :: r =>
    if c = nlChar then none
    else if isQuoteChar c then some ([], c, r)
    else
      match grabToQuote r with
      | some (p, q, rest) => some (c :: p, q, rest)
      | none => none

/-- Try the `from\s+['"](.*?)(['"])` tail of alternatives 1/2 at the current
position: `from`, a nonempty maximal whitespace run ending at a quote, then
the lazy quoted group.  Returns the consumed prefix (through the opening
quote), the specifier, the closing quote and the rest. -/
def tryFromCand (u : List Char) : Option (List Char × List Char × Char × List Char) :=
  if (("from").data).isPrefixOf u then
    match (u.drop 4).drop (countWS (u.drop 4)) with
    | q :: v2 =>
      if countWS (u.drop 4) > 0 ∧ isQuoteChar q then
        match grabToQuote v2 with
        | some (p, q3, rest) =>
          some ((("from").data) ++ (u.drop 4).take (countWS (u.drop 4)) ++ [q], p, q3, rest)
        | none => none
      else none
    | [] => none
  else none

/-- The lazy `.*?from\s+['"](.*?)(['"])` search: advance over non-newline
characters, trying `tryFromCand` at each position. -/
def scanFrom : List Char → Option (List Char × List Char × Char × List Char)
  | [] => none
  | c :: u2 =>
    if c = nlChar then none
    else
      match tryFromCand (c :: u2) with
      | some r => some r
      | none =>
        match scanFrom u2 with
        | some (mid, p, q3, rest) => some (c :: mid, p, q3, rest)
        | none => none

/-- Alternatives 1/2 of `IMPORT_REGEX` at the current position:
`kw\s+.*?from\s+['"](.*?)(['"])` with `kw` either `import` or `export`.
Returns (prefix group, specifier group, closing quote, rest). -/
def tryKw (kw : List Char) (s : List Char) : Option (List Char × List Char × Char × List Char) :=
  if kw.isPrefixOf s then
    if countWS (s.drop kw.length) > 0 then
      match scanFrom ((s.drop kw.length).drop (countWS (s.drop kw.length))) with
      | some (mid, p, q3, rest) =>
        some (kw ++ (s.drop kw.length).take (countWS (s.drop kw.length)) ++ mid, p, q3, rest)
      | none => none
    else none
  else none

/-- Alternative 3 of `IMPORT_REGEX`: `require\(['"](.*?)(['"])`. -/
def tryRequire (s : List Char) : Option (List Char × List Char × Char × List Char) :=
  if (("require(").data).isPrefixOf s then
    match s.drop 8 with
    | q :: t =>
      if isQuoteChar q then
        match grabToQuote t with
        | some (p, q3, rest) => some ((("require(").data) ++ [q], p, q3, rest)
        | none => none
      else none
    | [] => none
  else none

/-- `IMPORT_REGEX` at one position: the three alternatives (their leading
literals are mutually exclusive, so priority order never matters). -/
def tryMatchAt (s : List Char) : Option (List Char × List Char × Char × List Char) :=
  match tryKw (("import").data) s with
  | some r => some r
  | none =>
    match tryKw (("export").data) s with
    | some r => some r
    | none => tryRequire s

/-- `IMPORT_REGEX.sub(replacer, content)`: scan left to right; on a match,
emit the prefix group, the (possibly rewritten) specifier and the closing
quote, and resume after the match; otherwise move one character forward.
Every match consumes at least one character, so fuel `s.length` is never
exhausted. -/
def scanAux (root : List Seg) (file : String) : Nat → List Char → List Char
  | 0, s => s
  | fuel + 1, s =>
    match s with
    | [] => []
    | c :: rest =>
      match tryMatchAt s with
      | some (g1, path, q3, after) =>
        (match rewriteSpecifier root file (String.mk path) with
         | some aliased => g1 ++ aliased.data ++ [q3]
         | none => g1 ++ path ++ [q3]) ++ scanAux root file fuel after
      | none => c :: scanAux root file fuel rest

/-- The content transformation of `process_file` (the file is rewritten with
this new content whenever it differs from the old). -/
def processContent (root : List Seg) (file content : String) : String :=
  String.mk (scanAux root file content.data.length content.data)

/-- The rewrite pass of `main` in `refactor_imports.py` over a directory
walk, with each walked file paired with `some content` when readable and
`none` when reading raises.  `process_file` opens the file with no handler
anywhere on the call path, so an unreadable file propagates the exception
and aborts the whole run (modelled by `Except.error`). -/
def rewriteRun (root : List Seg) : List (String × Option String) → Except String (List (String × String))
  | [] => .ok []
  | (fp, none) :: _ => .error fp
  | (fp, some c) :: rest =>
    match rewriteRun root rest with
    | .ok out => .ok ((fp, processContent root fp c) :: out)
    | .error e => .error e

/-! ### The violation classifier (`analyze_report.py`) -/

/-- The three-way classification produced by the report analysis. -/
inductive Classification
  | SameModule
  | CrossModule
  | Other
  deriving DecidableEq

/-- Source-module derivation from `analyze_report.py`:

```python
source_module = None
if v['file'].startswith('src/modules/'):
    parts = v['file'].split('/')
    if len(parts) > 2:
        source_module = parts[2]
```
-/
def sourceModuleOf (file : String) : Option String :=
  if strStartsWith file.data (("src/modules/").data) then
    if (splitChar '/' file.data).length > 2 then
      some (String.mk ((splitChar '/' file.data).getD 2 []))
    else none
  else none

/-- Target-module derivation from `analyze_report.py`:

```python
target_module = None
if import_path.startswith('@/modules/'):
    parts = import_path.split('/')
    if len(parts) > 2:
        target_module = parts[2]
```
-/
def targetModuleOf (importPath : String) : Option String :=
  if strStartsWith importPath.data (("@/modules/").data) then
    if (splitChar '/' importPath.data).length > 2 then
      some (String.mk ((splitChar '/' importPath.data).getD 2 []))
    else none
  else none

/-- The classification branch of the loop in `analyze_report.py`:

```python
if source_module and target_module:
    if source_module == target_module: same_module.append(info)
    else: cross_module.append(info)
else:
    other_to_module.append(info)
```

`if source_module and target_module:` is Python truthiness, so `None` and
the empty string both take the `else` branch. -/
def classifyPair (file importPath : String) : Classification :=
  match sourceModuleOf file, targetModuleOf importPath with
  | some s, some t =>
    if s ≠ ("") ∧ t ≠ ("") then (if s = t then .SameModule else .CrossModule) else .Other
  | _, _ => .Other

/-- Specifier extraction from the lint message:
`import_path = v['message'].split("'")[1]`.  When the message contains no
single quote the split has a single element and the index raises
`IndexError` (modelled as `none`). -/
def extractImport (msg : String) : Option String :=
  match splitChar sqChar msg.data with
  | _ :: p1 :: _ => some (String.mk p1)
  | _ => none

/-- The classification of one report violation: extract the quoted
specifier, then classify.  `none` models the uncaught `IndexError` (the
surrounding `try` only handles `FileNotFoundError`). -/
def classifyViolation (file msg : String) : Option Classification :=
  (extractImport msg).map (classifyPair file)

/-! ### The live audit (`audit_script.py`) -/

/-- Worker for `splitOnList`; `fuel` bounds the recursion depth and
`fuel = s.length` always suffices, since each step either consumes the
(nonempty) separator or one character. -/
def splitOnListAux (sep : List Char) : Nat → List Char → List (List Char)
  | _, [] => [[]]
  | 0, s => [s]
  | fuel + 1, c :: rest =>
    if sep.isPrefixOf (c :: rest) ∧ sep ≠ [] then
      [] :: splitOnListAux sep fuel ((c :: rest).drop sep.length)
    else
      match splitOnListAux sep fuel rest with
      | [] => [[c]]
      | h2 :: t => (c :: h2) :: t

/-- Python `s.split(sep)` for a multi-character separator (non-overlapping,
left to right). -/
def splitOnList (sep s : List Char) : List (List Char) := splitOnListAux sep s.length s

/-- Containing-module derivation in `audit_codebase`:

```python
current_module = None
if "src/modules/" in filepath:
    parts = filepath.split("src/modules/")
    if len(parts) > 1:
        current_module = parts[1].split("/")[0]
```
-/
def currentModuleOf (filepath : String) : Option String :=
  if strContains filepath.data (("src/modules/").data) then
    match splitOnList (("src/modules/").data) filepath.data with
    | _ :: p1 :: _ => some (String.mk ((splitChar '/' p1).headD []))
    | _ => none
  else none

/-- Split off the text before the last quote character of a line remainder:
the greedy `(.*)['\"]` tail of `deep_import_pattern`. -/
def lastQuoteSplit : List Char → Option (List Char)
  | [] => none
  | c :: r =>
    match lastQuoteSplit r with
    | some rest => some (c :: rest)
    | none => if isQuoteChar c then some [] else none

/-- `deep_import_pattern = re.compile(r"from ['\"]@/modules/([^/]+)/(.*)['\"]")`
tried at one position: the literals `from `, a quote and `@/modules/`, a
nonempty maximal run of non-`/` characters (backtracking cannot shorten it,
since the following literal is exactly `/`), then the greedy `(.*)` running
to the last quote of the line.  Returns `(module, internal)` —
`match.group(1)` and `match.group(2)`. -/
def tryAudit (s : List Char) : Option (List Char × List Char) :=
  if (("from ").data).isPrefixOf s then
    match s.drop 5 with
    | q :: t =>
      if isQuoteChar q ∧ (("@/modules/").data).isPrefixOf t then
        match (t.drop 10).drop ((t.drop 10).takeWhile (fun c => c ≠ '/')).length with
        | c2 :: rem =>
          if c2 = '/' ∧ ((t.drop 10).takeWhile (fun c => c ≠ '/')) ≠ [] then
            match lastQuoteSplit (rem.takeWhile (fun c => c ≠ nlChar)) with
            | some internal => some ((t.drop 10).takeWhile (fun c => c ≠ '/'), internal)
            | none => none
          else none
        | [] => none
      else none
    | [] => none
  else none

/-- `deep_import_pattern.search(line)`: leftmost position where the whole
pattern matches. -/
def auditScanLine : List Char → Option (List Char × List Char)
  | [] => none
  | c :: r =>
    match tryAudit (c :: r) with
    | some res => some res
    | none => auditScanLine r

/-- Whether `audit_codebase` records a line as a module-boundary violation:

```python
match = deep_import_pattern.search(line)
if match:
    target_module = match.group(1)
    target_internal = match.group(2)
    if target_module != current_module and "/" in target_internal:
        findings["architecture"]["module_violations"].append(...)
```
-/
def auditLineFlag (filepath : String) (line : List Char) : Bool :=
  match auditScanLine line with
  | some (m, internal) =>
    decide (currentModuleOf filepath ≠ some (String.mk m)) && internal.contains '/'
  | none => false

/-- The `module_violations` records produced for one readable file:
line numbers (1-based) and text of the flagged lines.  File content is
modelled as `'\n'`-separated lines. -/
def auditFileViolations (filepath content : String) : List (Nat × String) :=
  (splitChar nlChar content.data).enum.filterMap
    (fun p => if auditLineFlag filepath p.2 then some (p.1 + 1, String.mk p.2) else none)

/-- The audit walk over files paired with `some content` when readable and
`none` when reading raises.  The per-file body runs inside
`try: ... except Exception as e: print(...)`, so an unreadable file is
skipped and the walk continues. -/
def auditRun : List (String × Option String) → List (String × Nat × String)
  | [] => []
  | (_, none) :: rest => auditRun rest
  | (fp, some c) :: rest =>
    (auditFileViolations fp c).map (fun v => (fp, v)) ++ auditRun rest

/-- A concrete repository root, `/home/user/repo`. -/
def sampleRoot : List Seg := [(("home").data), (("user").data), (("repo").data)]

/-- Containing file for the idempotence counterexample. -/
def c3file : String := ("src/hooks/f.ts")

/-- Content for the idempotence counterexample:
`import require('../../src/db/z from /x/..'./src/y'`.
The first pass rewrites the `require` specifier to `@/db/z from `, whose
trailing `from ` followed by the closing quote lets the second pass match
the leading `import` fragment and capture (and rewrite) `./src/y`. -/
def c3content : String :=
  String.mk ((("import require(").data) ++ sqChar ::
    (("../../src/db/z from /x/..").data) ++ sqChar :: (("./src/y").data) ++ [sqChar])

/-- Written from the spec's words for C2 trigger (a): the original
specifier "contains two consecutive parent-directory segments anywhere". -/
def hasConsecParentSegs : List Seg → Bool
  | a :: b :: r => (a = dotdotSeg ∧ b = dotdotSeg) ∨ hasConsecParentSegs (b :: r)
  | _ => false

/-- C2 trigger (a) per the spec, on a specifier string. -/
def specDoubleUp (path : String) : Bool := hasConsecParentSegs (splitChar '/' path.data)

/-- Written from the spec's words for C2 trigger (b): the normalized
canonical path "contains the legacy root segment (top-level `src/`) in its
interior". -/
def specLegacyInterior (canonical : String) : Bool :=
  match splitChar '/' canonical.data with
  | _ :: rest => rest.contains (("src").data)
  | [] => false


/-! ### Helper lemmas -/

lemma strStartsWith_cons {c hc : Char} {t hp : List Char}
    (h : strStartsWith (c :: t) (hc :: hp) = true) : hc = c ∧ strStartsWith t hp = true := by
  simpa [strStartsWith, List.isPrefixOf] using h

lemma startsDot_shape {l : List Char} (h : strStartsWith l dotSeg = true) :
    ∃ xs, l = '.' :: xs := by
  cases l with
  | nil => simp [strStartsWith, dotSeg, List.isPrefixOf] at h
  | cons c t =>
    rw [show dotSeg = '.' :: ([] : List Char) from rfl] at h
    obtain ⟨hc, -⟩ := strStartsWith_cons h
    exact ⟨t, by rw [← hc]⟩

lemma not_modules_of_dot {l : List Char} (h : strStartsWith l dotSeg = true) :
    strStartsWith l (("@/modules/").data) = false := by
  obtain ⟨xs, rfl⟩ := startsDot_shape h
  have hmod : (("@/modules/").data) = '@' :: (("/modules/").data) := rfl
  rw [hmod]
  simp [strStartsWith, List.isPrefixOf]

lemma targetModuleOf_none_of_dot {ip : String} (h : strStartsWith ip.data dotSeg = true) :
    targetModuleOf ip = none := by
  unfold targetModuleOf
  rw [not_modules_of_dot h]
  simp

lemma classifyPair_other_of_target_none {file ip : String} (h : targetModuleOf ip = none) :
    classifyPair file ip = Classification.Other := by
  unfold classifyPair
  rw [h]
  cases sourceModuleOf file <;> simp

lemma strContains_of_strStartsWith {s p : List Char} (h : strStartsWith s p = true) :
    strContains s p = true := by
  cases s with
  | nil =>
    cases p with
    | nil => simp [strContains, List.isEmpty]
    | cons c t => simp [strStartsWith, List.isPrefixOf] at h
  | cons c t => simp [strContains, strStartsWith] at h ⊢ ; exact Or.inl h

lemma splitChar_ne_nil (sep : Char) (l : List Char) : splitChar sep l ≠ [] := by
  cases l with
  | nil => simp [splitChar]
  | cons c rest =>
    simp only [splitChar]
    rcases h : splitChar sep rest with _ | ⟨h1, t⟩
    · simp
    · by_cases hc : c = sep <;> simp [hc]

lemma splitChar_two_of_mem {sep : Char} {l : List Char} (h : sep ∈ l) :
    ∃ a b t, splitChar sep l = a :: b :: t := by
  induction l with
  | nil => simp at h
  | cons c rest ih =>
    by_cases hc : c = sep
    · rcases hs : splitChar sep rest with _ | ⟨h1, t⟩
      · exact absurd hs (splitChar_ne_nil sep rest)
      · exact ⟨[], h1, t, by simp [splitChar, hs, hc]⟩
    · have hmem : sep ∈ rest := by
        rcases List.mem_cons.mp h with h1 | h1
        · exact absurd h1.symm hc
        · exact h1
      obtain ⟨a, b, t, hab⟩ := ih hmem
      exact ⟨c :: a, b, t, by simp [splitChar, hab, hc]⟩

lemma get_alias_core_head {table : List (String × String)} {path a : String}
    (htab : ∀ r ∈ table, r.2.data.head? = some ('@'))
    (h : get_alias_core table path = some a) : a.data.head? = some ('@') := by
  induction table with
  | nil => simp [get_alias_core] at h
  | cons r rest ih =>
    obtain ⟨source, aliasStr⟩ := r
    rw [get_alias_core] at h
    by_cases hm : path = source ∨ strStartsWith path.data (source.data ++ ['/']) = true
    · rw [if_pos hm] at h
      have ha : a = String.mk (aliasStr.data ++ path.data.drop source.data.length) :=
        (Option.some.injEq _ _ ▸ h).symm
      have hh : aliasStr.data.head? = some ('@') := htab (source, aliasStr) (by simp)
      rcases hal : aliasStr.data with _ | ⟨c, t⟩
      · rw [hal] at hh; simp at hh
      · rw [hal] at hh
        simp only [List.head?] at hh
        rw [ha, hal]
        simp [hh]
    · rw [if_neg hm] at h
      exact ih (fun r hr => htab r (List.mem_cons_of_mem _ hr)) h

lemma ALIASES_head : ∀ r ∈ ALIASES, r.2.data.head? = some ('@') := by decide

lemma not_dot_of_at_head {l : List Char} (h : l.head? = some ('@')) :
    strStartsWith l dotSeg = false := by
  rcases hl : l with _ | ⟨c, t⟩
  · rw [hl] at h; simp at h
  · rw [hl] at h
    simp only [List.head?] at h
    have hc : c = '@' := by simpa using h
    subst hc
    simp [strStartsWith, dotSeg, List.isPrefixOf]

lemma normStack_plain_prepend : ∀ (xs ys : List Seg) (absMode : Bool) (acc : List Seg),
    (∀ x ∈ xs, x ≠ [] ∧ x ≠ dotSeg ∧ x ≠ dotdotSeg) →
    normStack absMode acc (xs ++ ys) = normStack absMode (xs.reverse ++ acc) ys := by
  intro xs
  induction xs with
  | nil => intro ys absMode acc _; simp
  | cons x xs2 ih =>
    intro ys absMode acc h
    obtain ⟨hx1, hx2, hx3⟩ := h x (by simp)
    have hstep : normStack absMode acc ((x :: xs2) ++ ys) =
        normStack absMode (x :: acc) (xs2 ++ ys) := by
      show normStack absMode acc (x :: (xs2 ++ ys)) = _
      simp only [normStack]
      rw [if_neg (not_or.mpr ⟨hx1, hx2⟩), if_neg hx3]
    rw [hstep, ih ys absMode (x :: acc) (fun y hy => h y (by simp [hy]))]
    simp

lemma normStack_bottom_dotdot : ∀ (s : List Seg) (acc : List Seg),
    acc.getLast? = some dotdotSeg →
    (normStack false acc s).getLast? = some dotdotSeg := by
  intro s
  induction s with
  | nil => intro acc h; simpa [normStack] using h
  | cons seg rest ih =>
    intro acc h
    by_cases h1 : seg = [] ∨ seg = dotSeg
    · simp only [normStack]
      rw [if_pos h1]
      exact ih acc h
    · by_cases h2 : seg = dotdotSeg
      · rcases acc with _ | ⟨t, acc2⟩
        · simp at h
        · simp only [normStack]
          rw [if_neg h1, if_pos h2]
          show (if t = dotdotSeg then normStack false (dotdotSeg :: t :: acc2) rest
                else normStack false acc2 rest).getLast? = some dotdotSeg
          by_cases h3 : t = dotdotSeg
          · rw [if_pos h3]
            apply ih
            rw [List.getLast?_cons_cons]
            exact h
          · rw [if_neg h3]
            apply ih
            rcases acc2 with _ | ⟨c, cs⟩
            · simp at h
              exact absurd h h3
            · rw [List.getLast?_cons_cons] at h
              exact h
      · simp only [normStack]
        rw [if_neg h1, if_neg h2]
        apply ih
        rcases acc with _ | ⟨t, acc2⟩
        · simp at h
        · rw [List.getLast?_cons_cons]
          exact h

lemma normStack_abs_of_rel : ∀ (s : List Seg) (a r : List Seg),
    dotdotSeg ∉ a →
    (∀ x ∈ r, x ≠ [] ∧ x ≠ dotSeg ∧ x ≠ dotdotSeg) →
    (normStack false a s).getLast? ≠ some dotdotSeg →
    normStack true (a ++ r) s = normStack false a s ++ r := by
  intro s
  induction s with
  | nil => intro a r _ _ _; simp [normStack]
  | cons seg rest ih =>
    intro a r hna hr hlast
    by_cases h1 : seg = [] ∨ seg = dotSeg
    · have hfalse : normStack false a (seg :: rest) = normStack false a rest := by
        simp only [normStack]; rw [if_pos h1]
      have htrue : normStack true (a ++ r) (seg :: rest) = normStack true (a ++ r) rest := by
        simp only [normStack]; rw [if_pos h1]
      rw [htrue, hfalse]
      rw [hfalse] at hlast
      exact ih a r hna hr hlast
    · by_cases h2 : seg = dotdotSeg
      · rcases a with _ | ⟨t, a2⟩
        · exfalso
          apply hlast
          have hone : normStack false [] (seg :: rest) = normStack false [dotdotSeg] rest := by
            simp only [normStack]; rw [if_neg h1, if_pos h2]
            rfl
          rw [hone]
          exact normStack_bottom_dotdot rest [dotdotSeg] (by simp)
        · have ht : t ≠ dotdotSeg := fun hteq => hna (List.mem_cons.mpr (Or.inl hteq.symm))
          have hfalse : normStack false (t :: a2) (seg :: rest) = normStack false a2 rest := by
            simp only [normStack]; rw [if_neg h1, if_pos h2]
            show (if t = dotdotSeg then normStack false (dotdotSeg :: t :: a2) rest
                  else normStack false a2 rest) = normStack false a2 rest
            rw [if_neg ht]
          have htrue : normStack true ((t :: a2) ++ r) (seg :: rest) =
              normStack true (a2 ++ r) rest := by
            simp only [List.cons_append, normStack]
            rw [if_neg h1, if_pos h2]
            show (if t = dotdotSeg then normStack true (dotdotSeg :: t :: (a2 ++ r)) rest
                  else normStack true (a2 ++ r) rest) = normStack true (a2 ++ r) rest
            rw [if_neg ht]
          rw [htrue, hfalse]
          rw [hfalse] at hlast
          exact ih a2 r (fun hm => hna (List.mem_cons_of_mem _ hm)) hr hlast
      · have hfalse : normStack false a (seg :: rest) = normStack false (seg :: a) rest := by
          simp only [normStack]; rw [if_neg h1, if_neg h2]
        have htrue : normStack true (a ++ r) (seg :: rest) =
            normStack true ((seg :: a) ++ r) rest := by
          simp only [normStack]; rw [if_neg h1, if_neg h2]
          rfl
        rw [htrue, hfalse]
        rw [hfalse] at hlast
        refine ih (seg :: a) r ?_ hr hlast
        intro hm
        rcases List.mem_cons.mp hm with hx | hx
        · exact h2 hx.symm
        · exact hna hx

lemma commonPrefixLen_append_self : ∀ (root rel : List Seg),
    commonPrefixLen (root ++ rel) root = root.length := by
  intro root rel
  induction root with
  | nil => cases rel <;> rfl
  | cons y ys ih => simp [commonPrefixLen, ih]

lemma relpathSegs_append_self (root rel : List Seg) :
    relpathSegs (root ++ rel) root = rel := by
  unfold relpathSegs
  rw [commonPrefixLen_append_self]
  simp [List.drop_left]

lemma cpl_lt_of_not_isPrefixOf : ∀ (root l : List Seg),
    root.isPrefixOf l = false → commonPrefixLen l root < root.length := by
  intro root
  induction root with
  | nil => intro l h; simp [List.isPrefixOf] at h
  | cons y ys ih =>
    intro l h
    rcases l with _ | ⟨x, xs⟩
    · simp [commonPrefixLen]
    · by_cases hxy : x = y
      · have hbeq : (y == x) = true := by simp [hxy]
        have hrest : ys.isPrefixOf xs = false := by
          simpa [List.isPrefixOf, hbeq] using h
        have := ih xs hrest
        simp [commonPrefixLen, hxy]
        omega
      · simp [commonPrefixLen, hxy]

lemma joinSegsStr_dotdot_head : ∀ (r : List Seg),
    strStartsWith (joinSegsStr (dotdotSeg :: r)) dotdotSeg = true := by
  intro r
  cases r with
  | nil => decide
  | cons s rest =>
    show strStartsWith (dotdotSeg ++ '/' :: joinSegsStr (s :: rest)) dotdotSeg = true
    simp [strStartsWith, dotdotSeg, List.isPrefixOf]

/-! ### Claim theorems -/

/-- C1: for every (sourceFile, importSpecifier) pair given to the violation
classifier, the result follows the decision table: both modules defined and
equal gives SameModule, both defined and different gives CrossModule, and
every other case gives Other.  (The hypotheses exclude derived modules that
are the empty string, which only arise from paths with empty segments —
not canonical paths; Python truthiness treats them like undefined.) -/
theorem c1_decision_table (file importPath : String)
    (hs : sourceModuleOf file ≠ some (("")))
    (ht : targetModuleOf importPath ≠ some ((""))) :
    classifyPair file importPath =
      (match sourceModuleOf file, targetModuleOf importPath with
       | some s, some t =>
         if s = t then Classification.SameModule else Classification.CrossModule
       | _, _ => Classification.Other) := by
  unfold classifyPair
  rcases hsv : sourceModuleOf file with _ | s
  · simp
  · rcases htv : targetModuleOf importPath with _ | t
    · simp
    · have hs2 : s ≠ ("") := fun h => hs (hsv.trans (by rw [h]))
      have ht2 : t ≠ ("") := fun h => ht (htv.trans (by rw [h]))
      simp [hs2, ht2]

/-- Witness for C1 at a concrete pair (end-to-end scenario 2 of the spec). -/
theorem c1_decision_table_witness :
    classifyPair ("src/modules/billing/Bar.ts") ("@/modules/interactions/services/foo") =
      Classification.CrossModule :=
  (c1_decision_table ("src/modules/billing/Bar.ts") ("@/modules/interactions/services/foo")
    (by decide) (by decide)).trans (by decide)

/-- C5: the alias mapper iterates the table in declared order; a rule
matches iff the path equals its prefix or extends it across a `/` boundary;
the first matching rule wins and produces the alias with the remainder
preserved; a non-matching head rule is skipped; if no rule matches the
result is `none` and the specifier is left unrewritten; and with two
overlapping prefixes the rule listed first determines the result. -/
theorem c5_alias_mapper :
    (∀ (source aliasStr : String) (rest : List (String × String)) (path : String),
        (path = source ∨ strStartsWith path.data (source.data ++ ['/']) = true) →
        get_alias_core ((source, aliasStr) :: rest) path =
          some (String.mk (aliasStr.data ++ path.data.drop source.data.length)))
    ∧ (∀ (source aliasStr : String) (rest : List (String × String)) (path : String),
        ¬ (path = source ∨ strStartsWith path.data (source.data ++ ['/']) = true) →
        get_alias_core ((source, aliasStr) :: rest) path = get_alias_core rest path)
    ∧ (∀ (table : List (String × String)) (path : String),
        (∀ r ∈ table, ¬ (path = r.1 ∨ strStartsWith path.data (r.1.data ++ ['/']) = true)) →
        get_alias_core table path = none)
    ∧ (∀ (root : List Seg) (file path : String),
        get_alias_for_path (resolve_path root file path) = none →
        rewriteSpecifier root file path = none)
    ∧ get_alias_core [(("a"), ("@one")), (("a/b"), ("@two"))] ("a/b/c") = some ("@one/b/c") := by
  refine ⟨?_, ?_, ?_, ?_, by decide⟩
  · intro source aliasStr rest path h
    simp [get_alias_core, h]
  · intro source aliasStr rest path h
    simp [get_alias_core, h]
  · intro table path h
    induction table with
    | nil => simp [get_alias_core]
    | cons r rest ih =>
      obtain ⟨source, aliasStr⟩ := r
      rw [get_alias_core, if_neg (h (source, aliasStr) (by simp))]
      exact ih (fun r hr => h r (List.mem_cons_of_mem _ hr))
  · intro root file path h
    unfold rewriteSpecifier
    rcases hd : strStartsWith path.data dotSeg with _ | _
    · simp
    · rcases hb : strStartsWith (resolve_path root file path).data dotdotSeg with _ | _
      · simp [h]
      · simp

/-- Witness for C5: the first (matching) rule applied at a concrete path. -/
theorem c5_alias_mapper_witness :
    get_alias_core [(("src/db"), ("@/db"))] ("src/db/models/Friend") =
      some ("@/db/models/Friend") :=
  (c5_alias_mapper.1 ("src/db") ("@/db") [] ("src/db/models/Friend")
    (Or.inr (by decide))).trans (by decide)

/-- C2 fails on the code: the rewrite triggers are substring tests on the
original specifier, not conditions on segments or on the canonical path.
From `app/b.ts`, the specifier `./src/../foo` has no two consecutive
parent-directory segments and its canonical path `app/foo` has no interior
`src` segment — the claim demands rejection — yet the code accepts and
rewrites it (its raw text contains `/src/`). -/
theorem c2_counterexample :
    rewriteSpecifier sampleRoot ("app/b.ts") ("./src/../foo") = some ("@/app/foo")
    ∧ specDoubleUp ("./src/../foo") = false
    ∧ resolve_path sampleRoot ("app/b.ts") ("./src/../foo") = ("app/foo")
    ∧ specLegacyInterior ("app/foo") = false := by decide

/-- C2 amended: the decision rejects when the resolved alias is `none`,
empty, or equal to the original; otherwise it accepts iff the original
specifier contains the substring `../../` or the substring `/src/` (both
tested on the raw specifier text, not on segments or on the canonical
path).  `./sibling` is never rewritten; `../../../../src/db/models/Friend`
is rewritten from a file four directories deep whose resolution stays under
the root and hits an alias rule. -/
theorem c2_amended :
    (∀ (root : List Seg) (file path : String),
        rewriteSpecifier root file path =
          (if strStartsWith path.data dotSeg = true ∧
              strStartsWith (resolve_path root file path).data dotdotSeg = false then
            match get_alias_for_path (resolve_path root file path) with
            | none => none
            | some a =>
              if a ≠ ("") ∧ path ≠ a ∧
                  (strContains path.data (("../../").data) = true ∨
                   strContains path.data (("/src/").data) = true) then some a
              else none
          else none))
    ∧ (∀ (root : List Seg) (file : String),
        rewriteSpecifier root file ("./sibling") = none)
    ∧ rewriteSpecifier sampleRoot ("src/modules/billing/ui/Invoice.tsx")
        ("../../../../src/db/models/Friend") = some ("@/db/models/Friend") := by
  have part1 : ∀ (root : List Seg) (file path : String),
      rewriteSpecifier root file path =
        (if strStartsWith path.data dotSeg = true ∧
            strStartsWith (resolve_path root file path).data dotdotSeg = false then
          match get_alias_for_path (resolve_path root file path) with
          | none => none
          | some a =>
            if a ≠ ("") ∧ path ≠ a ∧
                (strContains path.data (("../../").data) = true ∨
                 strContains path.data (("/src/").data) = true) then some a
            else none
        else none) := by
    intro root file path
    unfold rewriteSpecifier
    rcases hd : strStartsWith path.data dotSeg with _ | _
    · simp [hd]
    · rcases hb : strStartsWith (resolve_path root file path).data dotdotSeg with _ | _
      · rcases hga : get_alias_for_path (resolve_path root file path) with _ | a
        · simp [hd, hb, hga]
        · by_cases he : a = ("")
          · simp [hd, hb, hga, he]
          · by_cases hp : path = a
            · simp [hd, hb, hga, he, hp]
            · rcases hc1 : strContains path.data (("../../").data) with _ | _
              · have hsw : strStartsWith path.data (("../../").data) = false := by
                  rcases hx : strStartsWith path.data (("../../").data) with _ | _
                  · rfl
                  · rw [strContains_of_strStartsWith hx] at hc1
                    exact absurd hc1 (by simp)
                rcases hc2 : strContains path.data (("/src/").data) with _ | _ <;>
                  simp [hd, hb, hga, he, hp, hc1, hsw, hc2]
              · simp [hd, hb, hga, he, hp, hc1]
      · simp [hd, hb]
  refine ⟨part1, ?_, by decide⟩
  intro root file
  rw [part1]
  rcases hga : get_alias_for_path (resolve_path root file ("./sibling")) with _ | a
  · split <;> simp [hga]
  · split
    · have h1 : strContains (("./sibling").data) (("../../").data) = false := by decide
      have h2 : strContains (("./sibling").data) (("/src/").data) = false := by decide
      simp [h1, h2]
    · rfl

/-- C3 fails on the code: the whole-file pass is not idempotent.  On
`c3content` the first pass rewrites the `require` specifier to
`@/db/z from `; the injected trailing `from ` directly before the closing
quote makes the second pass match the leading `import` fragment (which the
first pass could not match) and capture — and rewrite — the following
quoted `./src/y`. -/
theorem c3_counterexample :
    processContent sampleRoot c3file (processContent sampleRoot c3file c3content) ≠
      processContent sampleRoot c3file c3content := by decide

/-- C3 amended: the pass is idempotent at the level of each matched
occurrence — a rewritten specifier starts with `@`, hence no longer starts
with `.`, and is rejected before any rewrite decision — but the whole-file
pass is not idempotent in general, because a rewrite can alter how the
scanner parses the surrounding text on the next pass. -/
theorem c3_amended (root : List Seg) (file path aliased : String)
    (h : rewriteSpecifier root file path = some aliased) :
    rewriteSpecifier root file aliased = none := by
  have hhead : aliased.data.head? = some ('@') := by
    unfold rewriteSpecifier at h
    split at h
    · split at h
      · exact Option.noConfusion h
      · split at h
        · exact Option.noConfusion h
        · rename_i a heq
          split at h
          · exact Option.noConfusion h
          · split at h
            · split at h
              · obtain rfl : a = aliased := Option.some.inj h
                exact get_alias_core_head ALIASES_head heq
              · split at h
                · obtain rfl : a = aliased := Option.some.inj h
                  exact get_alias_core_head ALIASES_head heq
                · split at h
                  · obtain rfl : a = aliased := Option.some.inj h
                    exact get_alias_core_head ALIASES_head heq
                  · exact Option.noConfusion h
            · exact Option.noConfusion h
    · exact Option.noConfusion h
  have hsw : strStartsWith aliased.data dotSeg = false := not_dot_of_at_head hhead
  unfold rewriteSpecifier
  rw [hsw]
  simp

/-- Witness for C3 amended: the rewritten Friend specifier is itself left
alone. -/
theorem c3_amended_witness :
    rewriteSpecifier sampleRoot ("src/modules/billing/ui/Invoice.tsx")
      ("@/db/models/Friend") = none :=
  c3_amended sampleRoot ("src/modules/billing/ui/Invoice.tsx")
    ("../../../../src/db/models/Friend") ("@/db/models/Friend") (by decide)

/-- C4 fails on the code at the claim's own instance: `..` segments resolve
against the containing *directory*, so from `a/b/c.ts` the specifier
`../../d/e` resolves to `d/e`, not to the claimed `a/d/e`. -/
theorem c4_counterexample :
    resolve_path sampleRoot ("a/b/c.ts") ("../../d/e") = ("d/e")
    ∧ (("d/e") : String) ≠ ("a/d/e") := by decide

/-- C4 amended: for every relative specifier whose lexical resolution stays
inside the repository root, `resolve_path` (which goes through
`os.path.abspath`/`os.path.relpath` against the root) agrees with purely
lexical POSIX join-and-normalize of the containing directory and the
specifier, for any root made of plain segments; and the claim's instance
resolves to `d/e`.  (Escaping resolutions depend on the root, handled by
C8.) -/
theorem c4_amended :
    (∀ (root : List Seg) (file spec : String),
        (∀ g ∈ root, g ≠ [] ∧ g ≠ dotSeg ∧ g ≠ dotdotSeg) →
        strStartsWith spec.data dotSeg = true →
        (relNormSegs (dirSegs file.data ++ splitChar '/' spec.data)).head? ≠ some dotdotSeg →
        resolve_path root file spec = lexicalResolve file spec)
    ∧ resolve_path sampleRoot ("a/b/c.ts") ("../../d/e") = ("d/e")
    ∧ lexicalResolve ("a/b/c.ts") ("../../d/e") = ("d/e") := by
  refine ⟨?_, by decide, by decide⟩
  intro root file spec hroot hd hnodot
  have h1 : normStack true [] (root ++ (dirSegs file.data ++ splitChar '/' spec.data)) =
      normStack true (root.reverse ++ [])
        (dirSegs file.data ++ splitChar '/' spec.data) :=
    normStack_plain_prepend root _ true [] hroot
  have hlast : (normStack false [] (dirSegs file.data ++ splitChar '/' spec.data)).getLast? ≠
      some dotdotSeg := by
    intro hc
    apply hnodot
    unfold relNormSegs
    rw [List.head?_reverse]
    exact hc
  have h2 : normStack true ([] ++ root.reverse)
        (dirSegs file.data ++ splitChar '/' spec.data) =
      normStack false [] (dirSegs file.data ++ splitChar '/' spec.data) ++ root.reverse :=
    normStack_abs_of_rel _ [] root.reverse (by simp)
      (fun x hx => hroot x (List.mem_reverse.mp hx)) hlast
  have habs : normAbsSegs (root ++ (dirSegs file.data ++ splitChar '/' spec.data)) =
      root ++ relNormSegs (dirSegs file.data ++ splitChar '/' spec.data) := by
    unfold normAbsSegs relNormSegs
    simp only [List.append_nil, List.nil_append] at h1 h2
    rw [h1, h2]
    simp [List.reverse_append]
  unfold resolve_path lexicalResolve
  rw [hd]
  simp only [if_true]
  rw [List.append_assoc, habs, relpathSegs_append_self]

/-- Witness for C4 amended at a concrete in-bounds resolution. -/
theorem c4_amended_witness :
    resolve_path sampleRoot ("x/y/f.ts") ("./z") = lexicalResolve ("x/y/f.ts") ("./z") :=
  c4_amended.1 sampleRoot ("x/y/f.ts") ("./z") (by decide) (by decide) (by decide)

/-- C8: whenever the resolution of an occurrence's specifier does not land
inside the repository root (the normalized absolute path does not extend
the root), `os.path.relpath` yields a `..`-prefixed path, the
`resolved.startswith('..')` guard fires, and the occurrence is left
untouched; being a total function, the model also never raises. -/
theorem c8_out_of_bounds (root : List Seg) (file spec : String)
    (h : root.isPrefixOf
      (normAbsSegs (root ++ dirSegs file.data ++ splitChar '/' spec.data)) = false) :
    rewriteSpecifier root file spec = none := by
  rcases hd : strStartsWith spec.data dotSeg with _ | _
  · unfold rewriteSpecifier
    simp [hd]
  · have hres : resolve_path root file spec =
        String.mk (joinSegsStr (relpathSegs
          (normAbsSegs (root ++ dirSegs file.data ++ splitChar '/' spec.data)) root)) := by
      unfold resolve_path
      rw [hd]
      simp only [if_true]
    have hk : commonPrefixLen
        (normAbsSegs (root ++ dirSegs file.data ++ splitChar '/' spec.data)) root <
        root.length := cpl_lt_of_not_isPrefixOf root _ h
    obtain ⟨n, hn⟩ := Nat.exists_eq_succ_of_ne_zero (Nat.pos_iff_ne_zero.mp (Nat.sub_pos_of_lt hk))
    have hrel : relpathSegs
        (normAbsSegs (root ++ dirSegs file.data ++ splitChar '/' spec.data)) root =
        dotdotSeg :: (List.replicate n dotdotSeg ++
          (normAbsSegs (root ++ dirSegs file.data ++ splitChar '/' spec.data)).drop
            (commonPrefixLen
              (normAbsSegs (root ++ dirSegs file.data ++ splitChar '/' spec.data)) root)) := by
      unfold relpathSegs
      rw [hn]
      simp [List.replicate_succ]
    have hsw2 : strStartsWith (resolve_path root file spec).data dotdotSeg = true := by
      rw [hres]
      show strStartsWith (joinSegsStr (relpathSegs
        (normAbsSegs (root ++ dirSegs file.data ++ splitChar '/' spec.data)) root))
        dotdotSeg = true
      rw [hrel]
      exact joinSegsStr_dotdot_head _
    unfold rewriteSpecifier
    rw [hd, hsw2]
    simp

/-- Witness for C8 at a concrete escaping specifier. -/
theorem c8_out_of_bounds_witness :
    rewriteSpecifier sampleRoot ("f.ts") ("../../x") = none :=
  c8_out_of_bounds sampleRoot ("f.ts") ("../../x") (by decide)

/-- C6 fails on the code: the classifier never resolves relative
specifiers.  Source file `src/modules/billing/a.ts` with relative specifier
`../interactions/services/foo` resolves (per the path resolver) to
`src/modules/interactions/services/foo`, which lies under the modules root
with module `interactions` — the claim demands CrossModule — yet the
classifier returns Other. -/
theorem c6_counterexample :
    classifyPair ("src/modules/billing/a.ts") ("../interactions/services/foo") =
        Classification.Other
    ∧ sourceModuleOf ("src/modules/billing/a.ts") = some ("billing")
    ∧ resolve_path sampleRoot ("src/modules/billing/a.ts") ("../interactions/services/foo") =
        ("src/modules/interactions/services/foo")
    ∧ sourceModuleOf ("src/modules/interactions/services/foo") = some ("interactions")
    ∧ Classification.Other ≠ Classification.CrossModule := by decide

/-- C6 amended: the classifier derives a target module only from
alias-qualified specifiers; a relative specifier (beginning with `.`) is
never resolved and is always classified Other. -/
theorem c6_amended (file ip : String) (h : strStartsWith ip.data dotSeg = true) :
    classifyPair file ip = Classification.Other :=
  classifyPair_other_of_target_none (targetModuleOf_none_of_dot h)

/-- Witness for C6 amended at a concrete pair. -/
theorem c6_amended_witness :
    classifyPair ("src/modules/billing/a.ts") ("./helpers/x") = Classification.Other :=
  c6_amended ("src/modules/billing/a.ts") ("./helpers/x") (by decide)

/-- C7 fails on the code: a lint message with no single-quoted substring
makes `v['message'].split("'")[1]` raise `IndexError` (uncaught — the
enclosing `try` only handles `FileNotFoundError`), modelled by
`classifyViolation` returning `none` instead of a classification. -/
theorem c7_counterexample :
    classifyViolation ("src/modules/billing/a.ts") ("no quoted substring") = none := by decide

/-- C7 amended: for every message containing at least one single quote the
classification is total (one of the three values, no raise), and a
specifier that is not alias-qualified under the modules root — e.g. a bare
package name — always lands in Other. -/
theorem c7_amended :
    (∀ (file msg : String), sqChar ∈ msg.data →
        (classifyViolation file msg).isSome = true)
    ∧ (∀ (file ip : String), strStartsWith ip.data (("@/modules/").data) = false →
        classifyPair file ip = Classification.Other) := by
  constructor
  · intro file msg h
    obtain ⟨a, b, t, hsplit⟩ := splitChar_two_of_mem h
    unfold classifyViolation extractImport
    rw [hsplit]
    simp
  · intro file ip h
    refine classifyPair_other_of_target_none ?_
    unfold targetModuleOf
    rw [h]
    simp

/-- Witness for C7 amended: a concrete well-formed message classifies. -/
theorem c7_amended_witness :
    (classifyViolation ("src/modules/billing/Bar.ts")
      (String.mk (sqChar :: (("@/modules/interactions/services/foo").data) ++ sqChar ::
        ((" import is restricted").data)))).isSome = true :=
  c7_amended.1 ("src/modules/billing/Bar.ts")
    (String.mk (sqChar :: (("@/modules/interactions/services/foo").data) ++ sqChar ::
      ((" import is restricted").data))) (by decide)

/-- C9 fails on the code for the rewrite walk: `process_file` opens the
file with no exception handler on the call path, so the first unreadable
file aborts the whole run — here `b.ts` is readable and processable, but
the run errors out at `a.ts` instead of continuing. -/
theorem c9_counterexample :
    rewriteRun sampleRoot [(("a.ts"), none), (("b.ts"), some (("x")))] =
        Except.error ("a.ts")
    ∧ rewriteRun sampleRoot [(("b.ts"), some (("x")))] =
        Except.ok [(("b.ts"), ("x"))] := ⟨rfl, rfl⟩

/-- C9 amended: only the audit walk skips an unreadable file and continues
(its per-file body is wrapped in `try/except`); the rewrite walk aborts at
the first unreadable file. -/
theorem c9_amended :
    (∀ (pre : List (String × Option String)) (f : String)
        (rest : List (String × Option String)),
        auditRun (pre ++ (f, none) :: rest) = auditRun pre ++ auditRun rest)
    ∧ (∀ (root : List Seg) (f : String) (rest : List (String × Option String)),
        rewriteRun root ((f, (none : Option String)) :: rest) = Except.error f) := by
  constructor
  · intro pre f rest
    induction pre with
    | nil => simp [auditRun]
    | cons p pre2 ih =>
      obtain ⟨fp, oc⟩ := p
      cases oc with
      | none => simpa [auditRun] using ih
      | some c => simp [auditRun, ih]
  · intro root f rest
    rfl

/-- C10: the audit records a line as a module-boundary violation iff the
deep-import pattern matches with groups (module, internal), the module
differs from the containing file's module, and the internal part contains a
further `/`; consequently a module's own internals are never flagged, and a
single-segment (leaf) import is never flagged. -/
theorem c10_audit_rule :
    (∀ (filepath : String) (line : List Char),
        auditLineFlag filepath line = true ↔
          ∃ m internal, auditScanLine line = some (m, internal) ∧
            currentModuleOf filepath ≠ some (String.mk m) ∧ internal.contains '/' = true)
    ∧ (∀ (filepath : String) (line : List Char) (m internal : List Char),
        auditScanLine line = some (m, internal) →
        currentModuleOf filepath = some (String.mk m) →
        auditLineFlag filepath line = false)
    ∧ (∀ (filepath : String) (line : List Char) (m internal : List Char),
        auditScanLine line = some (m, internal) →
        internal.contains '/' = false →
        auditLineFlag filepath line = false) := by
  refine ⟨?_, ?_, ?_⟩
  · intro filepath line
    unfold auditLineFlag
    rcases hscan : auditScanLine line with _ | ⟨m, internal⟩
    · simp
    · constructor
      · intro h
        rcases Bool.and_eq_true_iff.mp h with ⟨h1, h2⟩
        exact ⟨m, internal, rfl, of_decide_eq_true h1, h2⟩
      · rintro ⟨m2, i2, heq, hne, hsl⟩
        injection heq with heq2
        injection heq2 with hm hi
        subst hm
        subst hi
        exact Bool.and_eq_true_iff.mpr ⟨decide_eq_true hne, hsl⟩
  · intro filepath line m internal hscan hsame
    unfold auditLineFlag
    rw [hscan]
    simp [hsame]
  · intro filepath line m internal hscan hnosl
    unfold auditLineFlag
    rw [hscan]
    show (decide (currentModuleOf filepath ≠ some (String.mk m)) && internal.contains '/') = false
    rw [hnosl, Bool.and_false]

/-- Witness for C10: a same-module deep import on a concrete line is not
flagged. -/
theorem c10_audit_rule_witness :
    auditLineFlag ("src/modules/billing/a.ts")
      ((("import x from ").data) ++ sqChar ::
        (("@/modules/billing/services/y").data) ++ [sqChar]) = false :=
  c10_audit_rule.2.1 ("src/modules/billing/a.ts") _ (("billing").data) (("services/y").data)
    (by decide) (by decide)
